import Mathlib

/-!
Verification of the MedPlant training-data pipeline
(`backend/ai_model/train_model.py`, class `MedicinalPlantDataset`).

The Python code is shallowly embedded: strings are Lean `String`
(`List Char` underneath, code points compared through `Char.toNat`),
dictionaries are insertion-ordered association lists, per-sample access
(`__getitem__`) is a fuel-indexed recursive function whose fuel mirrors the
skip-count bound of the source, and the two external effects (HTTP fetch and
the torchvision transform) are parameters of the dataset context.

The embedding covers ASCII text: Python's `str.lower` is modelled on the
ASCII letters (every character the pipeline keeps is ASCII, since the
character filter of `_normalize_name` only keeps `[a-zA-Z0-9\s]`), and the
whitespace class is the six ASCII whitespace characters recognised by both
`re`'s `\s` and `str.split`.
-/

namespace MedPlant

/-! ## Characters -/

/-- ASCII upper-case letter test, `A`-`Z` (code points 65-90). -/
def isUpperC (c : Char) : Bool :=
  decide (65 ≤ c.toNat) && decide (c.toNat ≤ 90)

/-- `str.lower` on one character, restricted to ASCII (see module comment). -/
def lowerChar (c : Char) : Char :=
  if isUpperC c then Char.ofNat (c.toNat + 32) else c

/-- `[a-zA-Z0-9]` test, as in the regex `[^a-zA-Z0-9\s]` of `_normalize_name`. -/
def isAlnumC (c : Char) : Bool :=
  (decide (97 ≤ c.toNat) && decide (c.toNat ≤ 122)) ||
  (decide (65 ≤ c.toNat) && decide (c.toNat ≤ 90)) ||
  (decide (48 ≤ c.toNat) && decide (c.toNat ≤ 57))

/-- ASCII whitespace: space, tab, newline, carriage return, vertical tab,
form feed — the characters matched by `\s` and split by `str.split()`. -/
def isPySpaceC (c : Char) : Bool :=
  decide (c.toNat = 32) || decide (c.toNat = 9) || decide (c.toNat = 10) ||
  decide (c.toNat = 13) || decide (c.toNat = 11) || decide (c.toNat = 12)

/-- Characters kept by `re.sub(r'[^a-zA-Z0-9\s]', '', text)`. -/
def keepC (c : Char) : Bool :=
  isAlnumC c || isPySpaceC c

/-- `text.replace('-', ' ').replace('_', ' ')` on one character
(`-` is 45, `_` is 95). -/
def replDashC (c : Char) : Char :=
  if c.toNat = 45 ∨ c.toNat = 95 then ' ' else c

/-! ## `re.sub(r'\([^)]*\)', '', text)`

Removes every leftmost-nonoverlapping match of an opening parenthesis,
a run of non-`)` characters, and a closing parenthesis.  The recursion is
fuel-indexed (the fuel `l.length` always suffices, since every step consumes
at least one character). -/

def stripParensF : Nat → List Char → List Char
  | 0, l => l
  | _ + 1, [] => []
  | f + 1, c :: rest =>
    if c = '(' then
      match rest.dropWhile (· != ')') with
      | [] => c :: stripParensF f rest
      | _ :: after => stripParensF f after
    else c :: stripParensF f rest

def stripParens (l : List Char) : List Char :=
  stripParensF l.length l

/-! ## `' '.join(text.split())` -/

/-- `str.split()`: maximal runs of non-whitespace characters, fuel-indexed. -/
def wordsCF : Nat → List Char → List (List Char)
  | 0, _ => []
  | _ + 1, [] => []
  | f + 1, c :: rest =>
    if isPySpaceC c then wordsCF f rest
    else (c :: rest.takeWhile (fun x => !isPySpaceC x)) ::
      wordsCF f (rest.dropWhile (fun x => !isPySpaceC x))

def wordsOf (l : List Char) : List (List Char) :=
  wordsCF l.length l

/-- `' '.join ws`. -/
def joinWordsC : List (List Char) → List Char
  | [] => []
  | [w] => w
  | w :: ws => w ++ ' ' :: joinWordsC ws

/-! ## `MedicinalPlantDataset._normalize_name` (train_model.py lines 130-143)

Steps, in this order: lower-case; replace `-`/`_` with space; strip
parenthesized substrings; delete characters outside `[a-zA-Z0-9\s]`;
collapse whitespace via split/join.  The inner helper `normalize_name`
defined inside `__getitem__` (lines 454-466) performs the identical steps
(it merely lacks the leading empty-string guard, which is behaviour-neutral
because every step maps the empty string to itself). -/

def normalizeL (l : List Char) : List Char :=
  joinWordsC (wordsOf (List.filter keepC
    (stripParens (List.map replDashC (List.map lowerChar l)))))

def normalizeName (s : String) : String :=
  if s = "" then "" else ⟨normalizeL s.data⟩

/-! ## Lemmas about the normalizer -/

theorem map_id_on {α : Type} {f : α → α} :
    ∀ {l : List α}, (∀ a ∈ l, f a = a) → l.map f = l
  | [], _ => rfl
  | a :: t, h => by
    simp only [List.map_cons, h a (by simp)]
    rw [map_id_on (fun b hb => h b (by simp [hb]))]

theorem takeWhile_all {α : Type} {p : α → Bool} :
    ∀ {l : List α}, (∀ a ∈ l, p a = true) → l.takeWhile p = l
  | [], _ => rfl
  | a :: t, h => by
    rw [List.takeWhile_cons, if_pos (h a (by simp)),
      takeWhile_all (fun b hb => h b (by simp [hb]))]

theorem dropWhile_all {α : Type} {p : α → Bool} :
    ∀ {l : List α}, (∀ a ∈ l, p a = true) → l.dropWhile p = []
  | [], _ => rfl
  | a :: t, h => by
    rw [List.dropWhile_cons_of_pos (h a (by simp)),
      dropWhile_all (fun b hb => h b (by simp [hb]))]

theorem takeWhile_append_stop {α : Type} {p : α → Bool} {y : α} {t : List α}
    (hy : p y = false) :
    ∀ {xs : List α}, (∀ a ∈ xs, p a = true) → (xs ++ y :: t).takeWhile p = xs
  | [], _ => by simp [List.takeWhile_cons, hy]
  | a :: as, h => by
    simp only [List.cons_append, List.takeWhile_cons, h a (by simp), if_true]
    rw [takeWhile_append_stop hy (fun b hb => h b (by simp [hb]))]

theorem dropWhile_append_stop {α : Type} {p : α → Bool} {y : α} {t : List α}
    (hy : p y = false) :
    ∀ {xs : List α}, (∀ a ∈ xs, p a = true) → (xs ++ y :: t).dropWhile p = y :: t
  | [], _ => by simp [List.dropWhile_cons, hy]
  | a :: as, h => by
    rw [List.cons_append, List.dropWhile_cons_of_pos (h a (by simp)),
      dropWhile_append_stop hy (fun b hb => h b (by simp [hb]))]

theorem isUpperC_lowerChar (c : Char) : isUpperC (lowerChar c) = false := by
  unfold lowerChar
  by_cases h : isUpperC c = true
  · rw [if_pos h]
    have h' : 65 ≤ c.toNat ∧ c.toNat ≤ 90 := by
      simpa [isUpperC] using h
    obtain ⟨h1, h2⟩ := h'
    generalize c.toNat = n at h1 h2 ⊢
    interval_cases n <;> decide
  · rw [if_neg h]
    exact Bool.not_eq_true _ |>.mp h

theorem lowerChar_eq_self {c : Char} (h : isUpperC c = false) : lowerChar c = c := by
  simp [lowerChar, h]

theorem isUpperC_replDashC_lowerChar (c : Char) :
    isUpperC (replDashC (lowerChar c)) = false := by
  unfold replDashC
  split
  · decide
  · exact isUpperC_lowerChar c

theorem replDashC_eq_self_of_keep {c : Char} (h : keepC c = true) :
    replDashC c = c := by
  unfold replDashC
  split
  · rename_i hd
    exfalso
    simp only [keepC, isAlnumC, isPySpaceC, Bool.or_eq_true, Bool.and_eq_true,
      decide_eq_true_eq] at h
    omega
  · rfl

theorem ne_lparen_of_keep {c : Char} (h : keepC c = true) : c ≠ '(' := by
  rintro rfl
  exact absurd h (by decide)

theorem ne_rparen_of_keep {c : Char} (h : keepC c = true) : c ≠ ')' := by
  rintro rfl
  exact absurd h (by decide)

theorem mem_stripParensF :
    ∀ (f : Nat) (l : List Char), ∀ c ∈ stripParensF f l, c ∈ l := by
  intro f
  induction f with
  | zero =>
    intro l c h
    simp only [stripParensF] at h
    exact h
  | succ f ih =>
    intro l c h
    cases l with
    | nil => simp [stripParensF] at h
    | cons a rest =>
      simp only [stripParensF] at h
      split at h
      · split at h
        · rcases List.mem_cons.1 h with rfl | h2
          · exact List.mem_cons_self _ _
          · exact List.mem_cons_of_mem _ (ih rest c h2)
        · rename_i x after hdrop
          have hmem : c ∈ after := ih after c h
          have h2 : c ∈ rest.dropWhile (· != ')') := by
            rw [hdrop]; exact List.mem_cons_of_mem _ hmem
          exact List.mem_cons_of_mem _ ((List.dropWhile_sublist _).mem h2)
      · rcases List.mem_cons.1 h with rfl | h2
        · exact List.mem_cons_self _ _
        · exact List.mem_cons_of_mem _ (ih rest c h2)

theorem stripParensF_id :
    ∀ (f : Nat) (l : List Char), (∀ c ∈ l, c ≠ '(') → stripParensF f l = l := by
  intro f
  induction f with
  | zero => intro l _; rfl
  | succ f ih =>
    intro l hl
    cases l with
    | nil => rfl
    | cons a rest =>
      simp only [stripParensF]
      rw [if_neg (hl a (by simp)), ih rest (fun c hc => hl c (by simp [hc]))]

theorem wordsCF_nil : ∀ f : Nat, wordsCF f [] = [] := by
  intro f; cases f <;> rfl

theorem mem_wordsCF :
    ∀ (f : Nat) (l : List Char), ∀ w ∈ wordsCF f l,
      w ≠ [] ∧ ∀ c ∈ w, isPySpaceC c = false ∧ c ∈ l := by
  intro f
  induction f with
  | zero => intro l w h; simp [wordsCF] at h
  | succ f ih =>
    intro l w h
    cases l with
    | nil => simp [wordsCF] at h
    | cons a rest =>
      simp only [wordsCF] at h
      split at h
      · rename_i hsp
        obtain ⟨hne, hch⟩ := ih rest w h
        exact ⟨hne, fun c hc => ⟨(hch c hc).1, List.mem_cons_of_mem _ (hch c hc).2⟩⟩
      · rename_i hsp
        rcases List.mem_cons.1 h with rfl | h2
        · refine ⟨by simp, ?_⟩
          intro c hc
          rcases List.mem_cons.1 hc with rfl | h3
          · exact ⟨Bool.not_eq_true _ |>.mp hsp, List.mem_cons_self _ _⟩
          · have hp := List.mem_takeWhile_imp h3
            have hm := (List.takeWhile_sublist _).mem h3
            refine ⟨?_, List.mem_cons_of_mem _ hm⟩
            simpa using hp
        · obtain ⟨hne, hch⟩ := ih _ w h2
          refine ⟨hne, fun c hc => ⟨(hch c hc).1, ?_⟩⟩
          exact List.mem_cons_of_mem _ ((List.dropWhile_sublist _).mem (hch c hc).2)

theorem wordsCF_joinWords :
    ∀ (ws : List (List Char)),
      (∀ w ∈ ws, w ≠ [] ∧ ∀ c ∈ w, isPySpaceC c = false) →
      ∀ f, (joinWordsC ws).length ≤ f → wordsCF f (joinWordsC ws) = ws := by
  intro ws
  induction ws with
  | nil => intro _ f _; simpa [joinWordsC] using wordsCF_nil f
  | cons w ws ih =>
    intro hprop f hf
    obtain ⟨hne, hchars⟩ := hprop w (by simp)
    obtain ⟨c, w', rfl⟩ : ∃ c w', w = c :: w' := by
      cases w with
      | nil => exact absurd rfl hne
      | cons c w' => exact ⟨c, w', rfl⟩
    have hcsp : isPySpaceC c = false := (hchars c (by simp))
    have hw'sp : ∀ b ∈ w', (fun x => !isPySpaceC x) b = true := by
      intro b hb; simp [hchars b (by simp [hb])]
    cases ws with
    | nil =>
      simp only [joinWordsC, List.length_cons] at hf ⊢
      obtain ⟨f', rfl⟩ : ∃ f', f = f' + 1 := ⟨f - 1, by omega⟩
      simp only [wordsCF, hcsp, Bool.false_eq_true, if_false]
      rw [takeWhile_all hw'sp, dropWhile_all hw'sp, wordsCF_nil]
    | cons w2 ws2 =>
      have hj : joinWordsC ((c :: w') :: w2 :: ws2)
          = (c :: w') ++ ' ' :: joinWordsC (w2 :: ws2) := rfl
      rw [hj] at hf ⊢
      obtain ⟨f', rfl⟩ : ∃ f', f = f' + 1 := ⟨f - 1, by simp at hf; omega⟩
      simp only [List.cons_append, List.append_eq, wordsCF, hcsp,
        Bool.false_eq_true, if_false]
      rw [takeWhile_append_stop (y := ' ') (t := joinWordsC (w2 :: ws2))
          (by decide) hw'sp,
        dropWhile_append_stop (y := ' ') (t := joinWordsC (w2 :: ws2))
          (by decide) hw'sp]
      congr 1
      have hlen : (joinWordsC (w2 :: ws2)).length + w'.length + 2 ≤ f' + 1 := by
        simp [List.length_append] at hf
        omega
      obtain ⟨f'', rfl⟩ : ∃ f'', f' = f'' + 1 := ⟨f' - 1, by omega⟩
      simp only [wordsCF]
      rw [if_pos (by decide)]
      exact ih (fun v hv => hprop v (by simp [hv])) f'' (by omega)

theorem mem_joinWordsC :
    ∀ (ws : List (List Char)) (c : Char),
      c ∈ joinWordsC ws → c = ' ' ∨ ∃ w ∈ ws, c ∈ w := by
  intro ws
  induction ws with
  | nil => intro c hc; simp [joinWordsC] at hc
  | cons w ws ih =>
    intro c hc
    cases ws with
    | nil => exact Or.inr ⟨w, by simp, by simpa [joinWordsC] using hc⟩
    | cons w2 ws2 =>
      have hj : joinWordsC (w :: w2 :: ws2) = w ++ ' ' :: joinWordsC (w2 :: ws2) := rfl
      rw [hj] at hc
      rcases List.mem_append.1 hc with h | h
      · exact Or.inr ⟨w, by simp, h⟩
      · rcases List.mem_cons.1 h with rfl | h2
        · exact Or.inl rfl
        · rcases ih c h2 with h3 | ⟨w3, hw3, hc3⟩
          · exact Or.inl h3
          · exact Or.inr ⟨w3, by simp [hw3], hc3⟩

/-- The character list after lowering, dash replacement, paren stripping and
filtering (everything in `_normalize_name` before the whitespace collapse). -/
def midList (l : List Char) : List Char :=
  List.filter keepC (stripParens (List.map replDashC (List.map lowerChar l)))

theorem normalizeL_eq (l : List Char) :
    normalizeL l = joinWordsC (wordsOf (midList l)) := rfl

theorem midList_keep {l : List Char} : ∀ c ∈ midList l, keepC c = true := by
  intro c hc
  exact List.of_mem_filter hc

theorem midList_not_upper {l : List Char} : ∀ c ∈ midList l, isUpperC c = false := by
  intro c hc
  have h1 : c ∈ stripParens (List.map replDashC (List.map lowerChar l)) :=
    List.mem_of_mem_filter hc
  have h2 : c ∈ List.map replDashC (List.map lowerChar l) :=
    mem_stripParensF _ _ c h1
  simp only [List.map_map, List.mem_map] at h2
  obtain ⟨a, _, rfl⟩ := h2
  exact isUpperC_replDashC_lowerChar a

theorem normalizeL_chars {l : List Char} :
    ∀ c ∈ normalizeL l, keepC c = true ∧ isUpperC c = false := by
  intro c hc
  rw [normalizeL_eq] at hc
  rcases mem_joinWordsC _ c hc with rfl | ⟨w, hw, hcw⟩
  · exact ⟨by decide, by decide⟩
  · have hcm : c ∈ midList l := ((mem_wordsCF _ _ w hw).2 c hcw).2
    exact ⟨midList_keep c hcm, midList_not_upper c hcm⟩

theorem normalizeL_idem (l : List Char) : normalizeL (normalizeL l) = normalizeL l := by
  have hwprop : ∀ w ∈ wordsOf (midList l),
      w ≠ [] ∧ ∀ c ∈ w, isPySpaceC c = false :=
    fun w hw => ⟨(mem_wordsCF _ _ w hw).1,
      fun c hc => ((mem_wordsCF _ _ w hw).2 c hc).1⟩
  have hrchars : ∀ c ∈ joinWordsC (wordsOf (midList l)),
      keepC c = true ∧ isUpperC c = false := by
    have h := @normalizeL_chars l
    rwa [normalizeL_eq] at h
  rw [normalizeL_eq l]
  generalize hws : wordsOf (midList l) = ws at hwprop hrchars ⊢
  unfold normalizeL
  rw [map_id_on (fun c hc => lowerChar_eq_self (hrchars c hc).2),
    map_id_on (fun c hc => replDashC_eq_self_of_keep (hrchars c hc).1)]
  rw [show stripParens (joinWordsC ws) = joinWordsC ws from
    stripParensF_id _ _ (fun c hc => ne_lparen_of_keep (hrchars c hc).1)]
  rw [List.filter_eq_self.mpr (fun c hc => (hrchars c hc).1)]
  unfold wordsOf
  rw [wordsCF_joinWords ws hwprop _ (le_refl _)]

/-- C6: the name normalizer `_normalize_name` is idempotent — for every
string s, normalize(normalize(s)) equals normalize(s). -/
theorem c6_normalize_idempotent (s : String) :
    normalizeName (normalizeName s) = normalizeName s := by
  by_cases h : s = ""
  · simp [normalizeName, h]
  · have h1 : normalizeName s = ⟨normalizeL s.data⟩ := by simp [normalizeName, h]
    rw [h1]
    by_cases h2 : (⟨normalizeL s.data⟩ : String) = ""
    · rw [h2]
      simp [normalizeName]
    · have h3 : normalizeName ⟨normalizeL s.data⟩
          = ⟨normalizeL (normalizeL s.data)⟩ := by
        simp [normalizeName, h2]
      rw [h3, normalizeL_idem]

/-- C7: `_normalize_name` applies, in order, lower-casing, dash/underscore
replacement, parenthesized-substring removal, the non-alphanumeric filter
and whitespace collapsing (this order is the definition `normalizeL`);
consequently empty input yields empty output, and for every non-empty input
with a parenthesized suffix the output contains no parenthesis characters. -/
theorem c7_normalize_steps :
    normalizeName "" = "" ∧
    ∀ s : String, s ≠ "" → (∃ a b : String, s = a ++ "(" ++ b ++ ")") →
      '(' ∉ (normalizeName s).data ∧ ')' ∉ (normalizeName s).data := by
  refine ⟨rfl, ?_⟩
  intro s hne _
  have hchars := @normalizeL_chars s.data
  have hd : (normalizeName s).data = normalizeL s.data := by
    simp [normalizeName, hne]
  rw [hd]
  constructor
  · intro hmem
    exact ne_lparen_of_keep (hchars _ hmem).1 rfl
  · intro hmem
    exact ne_rparen_of_keep (hchars _ hmem).1 rfl

/-- Witness for C7 at the concrete input "aloe (vera)". -/
theorem c7_witness :
    '(' ∉ (normalizeName "aloe (vera)").data ∧
    ')' ∉ (normalizeName "aloe (vera)").data :=
  c7_normalize_steps.2 "aloe (vera)" (by decide) ⟨"aloe ", "vera", by decide⟩

/-! ## The in-memory cache `self._image_cache` -/

/-- Abstract decoded image (the pixel data itself plays no role). -/
abbrev Img := Nat

/-- A value stored in `self._image_cache`: a URL list built during
initialization/prefetch, or a processed (image, label) tuple memoized by
`__getitem__` at line 616. -/
inductive CacheVal where
  | urls : List String → CacheVal
  | sample : Img × Nat → CacheVal
deriving DecidableEq, Repr

/-- The cache dictionary, as an insertion-ordered association list
(Python 3.7+ dicts preserve insertion order, which strategy 4's key scan
observes). -/
abbrev AssetCache := List (String × CacheVal)

/-- Python dict lookup; first binding wins (keys are unique in a real dict,
so this is faithful). -/
def alookup {β : Type} (k : String) : List (String × β) → Option β
  | [] => none
  | (k', v) :: rest => if k' = k then some v else alookup k rest

/-- Python dict assignment `d[k] = v`: replaces in place, or appends a new
binding at the end. -/
def dictSet (k : String) (v : CacheVal) : AssetCache → AssetCache
  | [] => [(k, v)]
  | (k', v') :: rest =>
    if k' = k then (k', v) :: rest else (k', v') :: dictSet k v rest

def keysOf (c : AssetCache) : List String := c.map Prod.fst

/-- Python truthiness of `self._image_cache[key]` (an empty URL list is
falsy, a (img, label) tuple is truthy), with `none` for a missing key. -/
def truthyVal : Option CacheVal → Bool
  | none => false
  | some (.urls us) => !us.isEmpty
  | some (.sample _) => true

/-- One element of `matching_urls` after a Python `extend`: extending with a
URL list adds its URLs, extending with a (img, label) tuple adds its two
components. -/
inductive MatchItem where
  | url : String → MatchItem
  | imgPart : Img → MatchItem
  | labelPart : Nat → MatchItem
deriving DecidableEq, Repr

def itemsOf : CacheVal → List MatchItem
  | .urls us => us.map MatchItem.url
  | .sample (i, n) => [.imgPart i, .labelPart n]

/-! ## Parsing the declared image name (lines 468-478) -/

/-- Python `str.strip()`, ASCII whitespace. -/
def trimC (l : List Char) : List Char :=
  ((l.dropWhile isPySpaceC).reverse.dropWhile isPySpaceC).reverse

/-- Lines 473-478: when the declared image name contains both '(' and ')',
the text before the first '(' (stripped, lowered) rebinds the local
`scientific_name` used by strategy 2.  Unset (None) is modelled as "",
which is equally falsy downstream. -/
def parseSci (s : String) : String :=
  if s.data.contains '(' && s.data.contains ')' then
    ⟨(trimC (s.data.takeWhile (· != '('))).map lowerChar⟩
  else ""

/-- Lines 475-478: `image_name.split('(')[1].split(')')[0].strip().lower()`,
the `common_name` used by strategy 3; "" when unset. -/
def parseCommon (s : String) : String :=
  if s.data.contains '(' && s.data.contains ')' then
    ⟨(trimC (((s.data.dropWhile (· != '(')).tail.takeWhile
      (· != '(')).takeWhile (· != ')'))).map lowerChar⟩
  else ""

/-- `clean_name.split()` as a list of strings. -/
def wordsOfStr (s : String) : List String :=
  (wordsOf s.data).map fun w => ⟨w⟩

/-- Python substring containment `a in b` for strings. -/
def isPre : List Char → List Char → Bool
  | [], _ => true
  | _ :: _, [] => false
  | a :: as, b :: bs => a == b && isPre as bs

def isSubstrS (a b : String) : Bool :=
  (b.data.tails).any fun t => isPre a.data t

/-! ## The four matching strategies of `__getitem__` (lines 480-569) -/

/-- The fixed `name_variations` table (lines 488-493); keys outside the
table have no variations. -/
def nameVariations (w : String) : List String :=
  if w = "neem" then ["azadirachta", "indica"]
  else if w = "lemon" then ["citrus", "limon"]
  else if w = "bitter" then ["garcinia", "kola"]
  else if w = "kola" then ["garcinia", "bitter"]
  else []

/-- The stopword list of strategy 4 (line 542). -/
def stopwords : List String := ["and", "the", "of", "or"]

/-- Strategy 1 (lines 495-498): exact cache hit of the fully normalized
declared name; a present key contributes its entry even when empty. -/
def strat1 (clean : String) (c : AssetCache) : List MatchItem :=
  match alookup clean c with
  | some v => itemsOf v
  | none => []

/-- Strategy 2 (lines 500-511): exact hit of the normalized parsed
scientific name, else a hit of its first word; skipped when the parsed name
is falsy. -/
def strat2 (psci : String) (c : AssetCache) : List MatchItem :=
  if psci = "" then []
  else
    match alookup (normalizeName psci) c with
    | some v => itemsOf v
    | none =>
      match (wordsOfStr (normalizeName psci)).head? with
      | some g =>
        match alookup g c with
        | some v => itemsOf v
        | none => []
      | none => []

/-- First listed variation whose key is present; the inner loop breaks on a
present key regardless of the entry's emptiness. -/
def varLoop (vs : List String) (c : AssetCache) : List MatchItem :=
  match vs with
  | [] => []
  | v :: rest =>
    match alookup v c with
    | some w => itemsOf w
    | none => varLoop rest c

/-- Word loop of strategy 3 (lines 521-535): an exact word hit breaks
unconditionally; a variation hit only ends the loop when non-empty. -/
def s3loop : List String → AssetCache → List MatchItem
  | [], _ => []
  | w :: ws, c =>
    match alookup w c with
    | some v => itemsOf v
    | none =>
      let m := varLoop (nameVariations w) c
      if m ≠ [] then m else s3loop ws c

/-- Strategy 3 (lines 514-535): exact hit of the normalized common name,
else the word loop; skipped when the parsed common name is falsy. -/
def strat3 (pcommon : String) (c : AssetCache) : List MatchItem :=
  if pcommon = "" then []
  else
    match alookup (normalizeName pcommon) c with
    | some v => itemsOf v
    | none => s3loop (wordsOfStr (normalizeName pcommon)) c

/-- Substring scan over all cache keys in dict insertion order
(lines 563-567): the first key containing the word, or contained in it,
contributes its entry. -/
def containScan (w : String) : AssetCache → List MatchItem
  | [] => []
  | (k, v) :: rest =>
    if isSubstrS w k || isSubstrS k w then itemsOf v else containScan w rest

/-- Word loop of strategy 4 (lines 540-569): skip short words and
stopwords; exact word hit breaks unconditionally; variation and
substring hits only end the loop when non-empty; the substring scan runs
only for words longer than 4 characters. -/
def s4loop : List String → AssetCache → List MatchItem
  | [], _ => []
  | w :: ws, c =>
    if w.length < 3 ∨ w ∈ stopwords then s4loop ws c
    else
      match alookup w c with
      | some v => itemsOf v
      | none =>
        let mv := varLoop (nameVariations w) c
        if mv ≠ [] then mv
        else if 4 < w.length then
          let mp := containScan w c
          if mp ≠ [] then mp else s4loop ws c
        else s4loop ws c

/-- Strategy 4 (lines 537-569). -/
def strat4 (parts : List String) (c : AssetCache) : List MatchItem :=
  s4loop parts c

/-- The full fallback chain (lines 480-569): strategies in order, first
non-empty `matching_urls` wins — every later strategy runs under
`if not matching_urls`. -/
def resolveUrls (name : String) (c : AssetCache) : List MatchItem :=
  if strat1 (normalizeName name) c ≠ [] then strat1 (normalizeName name) c
  else if strat2 (parseSci name) c ≠ [] then strat2 (parseSci name) c
  else if strat3 (parseCommon name) c ≠ [] then strat3 (parseCommon name) c
  else strat4 (wordsOfStr (normalizeName name)) c

/-- The pre-strategy gate (lines 436-447): at least one of the two
normalized record names must map to a truthy cache entry, or the record is
skipped before any strategy runs. -/
def gatePass (imageName sciName : String) (c : AssetCache) : Bool :=
  truthyVal (alookup (normalizeName imageName) c) ||
  truthyVal (alookup (normalizeName sciName) c)

/-! ## The `cache_key` variable

Line 450 sets `cache_key = f"{image_name}_{aug_idx}"`, but the substring
scan of strategy 4 (line 563) reuses the SAME variable as its loop
variable: `for cache_key in self._image_cache.keys()`.  After a scan,
`cache_key` holds the key where the scan broke, or — when no key matched —
the dictionary's last key (or its previous value when the dictionary is
empty and the loop body never ran).  The memo write at line 616 goes
through whatever `cache_key` finally holds, so a success after a substring
scan can write over an existing term key.  The instrumented versions below
thread the current `cache_key` value and agree with `containScan`,
`s4loop` and `resolveUrls` on the returned matches (lemmas `_fst`). -/

/-- `containScan` instrumented with the `cache_key` rebinding of
line 563. -/
def containScanK (w : String) : AssetCache → String → List MatchItem × String
  | [], ck => ([], ck)
  | (k, v) :: rest, _ =>
    if isSubstrS w k || isSubstrS k w then (itemsOf v, k)
    else containScanK w rest k

/-- `s4loop` instrumented with the `cache_key` value: only the substring
scans rebind it; exact-word and variation hits leave it unchanged. -/
def s4loopK : List String → AssetCache → String → List MatchItem × String
  | [], _, ck => ([], ck)
  | w :: ws, c, ck =>
    if w.length < 3 ∨ w ∈ stopwords then s4loopK ws c ck
    else
      match alookup w c with
      | some v => (itemsOf v, ck)
      | none =>
        if varLoop (nameVariations w) c ≠ [] then
          (varLoop (nameVariations w) c, ck)
        else if 4 < w.length then
          if (containScanK w c ck).1 ≠ [] then containScanK w c ck
          else s4loopK ws c (containScanK w c ck).2
        else s4loopK ws c ck

/-- `resolveUrls` instrumented with the final `cache_key` value:
strategies 1-3 never touch it; whenever the chain reaches strategy 4, its
substring scans may rebind it. -/
def resolveUrlsK (name : String) (c : AssetCache) (ck : String) :
    List MatchItem × String :=
  if strat1 (normalizeName name) c ≠ [] then (strat1 (normalizeName name) c, ck)
  else if strat2 (parseSci name) c ≠ [] then (strat2 (parseSci name) c, ck)
  else if strat3 (parseCommon name) c ≠ [] then
    (strat3 (parseCommon name) c, ck)
  else s4loopK (wordsOfStr (normalizeName name)) c ck

theorem containScanK_fst (w : String) :
    ∀ (c : AssetCache) (ck : String), (containScanK w c ck).1 = containScan w c
  | [], _ => rfl
  | (k, v) :: rest, ck => by
    simp only [containScanK, containScan]
    split
    · rfl
    · exact containScanK_fst w rest k

theorem s4loopK_fst :
    ∀ (ws : List String) (c : AssetCache) (ck : String),
      (s4loopK ws c ck).1 = s4loop ws c
  | [], _, _ => rfl
  | w :: ws, c, ck => by
    simp only [s4loopK, s4loop]
    split
    · exact s4loopK_fst ws c ck
    · split
      · rfl
      · by_cases hv : varLoop (nameVariations w) c ≠ []
        · rw [if_pos hv, if_pos hv]
        · rw [if_neg hv, if_neg hv]
          by_cases hl : 4 < w.length
          · rw [if_pos hl, if_pos hl]
            by_cases hc : containScan w c ≠ []
            · rw [if_pos (by rw [containScanK_fst]; exact hc), if_pos hc]
              exact containScanK_fst w c ck
            · rw [if_neg (by rw [containScanK_fst]; exact hc), if_neg hc]
              exact s4loopK_fst ws c _
          · rw [if_neg hl, if_neg hl]
            exact s4loopK_fst ws c ck

theorem resolveUrlsK_fst (name : String) (c : AssetCache) (ck : String) :
    (resolveUrlsK name c ck).1 = resolveUrls name c := by
  simp only [resolveUrlsK, resolveUrls]
  split
  · rfl
  · split
    · rfl
    · split
      · rfl
      · exact s4loopK_fst _ c ck

/-! ## Claims C1 and C2: the strategy chain -/

/-- Cache used in the C1 counterexample: the normalized declared name is an
indexed key seeded with an empty URL list (exactly what
`_initialize_cache` produces for every record name), and a word-level key
holds a URL. -/
def c1cache : AssetCache := [("foo bar", .urls []), ("foo", .urls ["u"])]

/-- C1 counterexample: "foo bar" is an indexed key of the asset cache, yet
resolution of the record with declared name "foo bar" does not resolve via
strategy 1 (which yields nothing) — it consults the later strategies and
returns the strategy-4 result. -/
theorem c1_counterexample :
    "foo bar" ∈ keysOf c1cache ∧
    normalizeName "foo bar" = "foo bar" ∧
    strat1 (normalizeName "foo bar") c1cache = [] ∧
    resolveUrls "foo bar" c1cache
      = strat4 (wordsOfStr (normalizeName "foo bar")) c1cache ∧
    resolveUrls "foo bar" c1cache = [MatchItem.url "u"] := by
  decide

/-- C1 (amended): resolution applies the four strategies in strict priority
order and returns the first non-empty result, and a record whose fully
normalized declared image name is an indexed key mapped to a NON-EMPTY URL
list resolves via strategy 1, strategies 2-4 then playing no role.
(The non-emptiness proviso is forced: `_initialize_cache` seeds keys with
empty lists, and a present-but-empty strategy-1 key lets strategies 2-4
run, as the counterexample shows.) -/
theorem c1_amended_resolution_priority (name : String) (c : AssetCache) :
    (strat1 (normalizeName name) c ≠ [] →
      resolveUrls name c = strat1 (normalizeName name) c) ∧
    (strat1 (normalizeName name) c = [] → strat2 (parseSci name) c ≠ [] →
      resolveUrls name c = strat2 (parseSci name) c) ∧
    (strat1 (normalizeName name) c = [] → strat2 (parseSci name) c = [] →
      strat3 (parseCommon name) c ≠ [] →
      resolveUrls name c = strat3 (parseCommon name) c) ∧
    (strat1 (normalizeName name) c = [] → strat2 (parseSci name) c = [] →
      strat3 (parseCommon name) c = [] →
      resolveUrls name c = strat4 (wordsOfStr (normalizeName name)) c) ∧
    (∀ us : List String, us ≠ [] →
      alookup (normalizeName name) c = some (CacheVal.urls us) →
      resolveUrls name c = us.map MatchItem.url) := by
  have e1 : ∀ _ : strat1 (normalizeName name) c ≠ [],
      resolveUrls name c = strat1 (normalizeName name) c := by
    intro h
    rw [resolveUrls, if_pos h]
  refine ⟨e1, ?_, ?_, ?_, ?_⟩
  · intro h1 h2
    rw [resolveUrls, if_neg (fun hn => hn h1), if_pos h2]
  · intro h1 h2 h3
    rw [resolveUrls, if_neg (fun hn => hn h1), if_neg (fun hn => hn h2),
      if_pos h3]
  · intro h1 h2 h3
    rw [resolveUrls, if_neg (fun hn => hn h1), if_neg (fun hn => hn h2),
      if_neg (fun hn => hn h3)]
  · intro us hne hl
    have h1 : strat1 (normalizeName name) c = us.map MatchItem.url := by
      simp [strat1, hl, itemsOf]
    rw [e1 (by simp [h1, hne]), h1]

/-- Witness for the amended C1: a record whose normalized declared name
maps to a non-empty URL list resolves to exactly those URLs. -/
theorem c1_witness :
    resolveUrls "aloe" [("aloe", CacheVal.urls ["u"])] = [MatchItem.url "u"] :=
  (c1_amended_resolution_priority "aloe" [("aloe", CacheVal.urls ["u"])]).2.2.2.2
    ["u"] (by decide) (by decide)

/-- Modelled from the spec: strategy 2 as the specification states it — an
exact lookup of the RECORD's normalized scientific name in the asset index
and, if that key is absent, a lookup of just its first word (genus).  Used
only to compare the specified behaviour with the implemented `strat2`,
which instead receives text parsed out of the declared image name. -/
def specStrategy2 (recordSci : String) (c : AssetCache) : List MatchItem :=
  match alookup (normalizeName recordSci) c with
  | some v => itemsOf v
  | none =>
    match (wordsOfStr (normalizeName recordSci)).head? with
    | some g =>
      match alookup g c with
      | some v => itemsOf v
      | none => []
    | none => []

/-- Cache used in the C2 counterexample. -/
def c2cache : AssetCache := [("aloe vera", .urls ["u"])]

/-- C2 counterexample: for a record with declared image name "foo" and
scientific name "aloe vera", strategy 1 fails and the record's normalized
scientific name is an indexed key with a non-empty URL list; the claimed
strategy 2 (spec-modelled) would return its URL, but the implementation
resolves to nothing, because line 474 rebinds `scientific_name` to text
parsed from the image name (None here, since "foo" has no parentheses). -/
theorem c2_counterexample :
    strat1 (normalizeName "foo") c2cache = [] ∧
    alookup (normalizeName "aloe vera") c2cache = some (CacheVal.urls ["u"]) ∧
    specStrategy2 "aloe vera" c2cache = [MatchItem.url "u"] ∧
    parseSci "foo" = "" ∧
    resolveUrls "foo" c2cache = [] := by
  decide

/-- C2 (amended): strategy 2 is attempted only when strategy 1 yields
nothing and the declared image name contains both '(' and ')' with
non-falsy text before the first '('; it then performs an exact lookup of
the normalized pre-parenthesis text of the DECLARED IMAGE NAME (not of the
record's scientific-name field) and, if that key is absent, a lookup of
its first word. -/
theorem c2_amended_strategy2 (name : String) (c : AssetCache) :
    (strat1 (normalizeName name) c = [] → strat2 (parseSci name) c ≠ [] →
      resolveUrls name c = strat2 (parseSci name) c) ∧
    (¬(name.data.contains '(' = true ∧ name.data.contains ')' = true) →
      parseSci name = "") ∧
    (parseSci name = "" → strat2 (parseSci name) c = []) ∧
    (∀ v, parseSci name ≠ "" →
      alookup (normalizeName (parseSci name)) c = some v →
      strat2 (parseSci name) c = itemsOf v) ∧
    (∀ g, parseSci name ≠ "" →
      alookup (normalizeName (parseSci name)) c = none →
      (wordsOfStr (normalizeName (parseSci name))).head? = some g →
      strat2 (parseSci name) c
        = (match alookup g c with | some v => itemsOf v | none => [])) := by
  refine ⟨?_, ?_, ?_, ?_, ?_⟩
  · intro h1 h2
    rw [resolveUrls, if_neg (fun hn => hn h1), if_pos h2]
  · intro h
    simp only [parseSci, Bool.and_eq_true]
    rw [if_neg (by simpa using h)]
  · intro h
    simp [strat2, h]
  · intro v h1 h2
    simp [strat2, h1, h2]
  · intro g h1 h2 h3
    simp [strat2, h1, h2, h3]

/-- Witness for the amended C2: an image name of the form
"Scientific (Common)" whose genus is an indexed key resolves through
strategy 2's genus fallback. -/
theorem c2_witness :
    resolveUrls "Azadirachta indica (Neem)" [("azadirachta", CacheVal.urls ["u2"])]
      = [MatchItem.url "u2"] := by
  have h := (c2_amended_strategy2 "Azadirachta indica (Neem)"
    [("azadirachta", CacheVal.urls ["u2"])]).1 (by decide) (by decide)
  rw [h]
  decide

/-! ## Plant records and `__getitem__` (lines 406-627) -/

/-- One entry of `plant_data`.  A missing field (`plant.get(...)` returning
None) is modelled as "", which the code treats identically — both are
falsy in every check that reads these fields. -/
structure PlantRecord where
  image_name : String
  scientific_name : String
deriving DecidableEq, Repr

/-- Failures that escape `__getitem__` itself: the RuntimeError of line 408
once the skip count reaches the record count, and the IndexError a
too-large base index would raise at line 418 (outside every try block). -/
inductive GErr where
  | exhausted
  | indexError
deriving DecidableEq, Repr

/-- The read-only dataset state of `__getitem__`: records, augmentation
flag, the label dictionary of lines 82-83, and the external effects —
`fetch` abstracts the HTTP GET + raise_for_status + PIL decode of
lines 588-592 (and 604-608), `transform` the torchvision transform,
`augUrl` the `cloudinary_url(image_url, **transform_params)[0]` call of
line 602. -/
structure DCtx where
  plants : List PlantRecord
  augment : Bool
  labels : List (String × Nat)
  fetch : String → Except Unit Img
  transform : Img → Img
  augUrl : String → Nat → String

/-- Line 414/418: the base record index derived from the requested index
(`idx // (len(augmentation_transforms) + 1)` with 4 transforms when
augmenting, else `idx` itself). -/
def baseOf (ctx : DCtx) (idx : Nat) : Nat :=
  if ctx.augment then idx / 5 else idx

/-- Line 416: `idx % 5 - 1` when augmenting, else -1. -/
def augIdxOf (ctx : DCtx) (idx : Nat) : Int :=
  if ctx.augment then ((idx % 5 : Nat) : Int) - 1 else -1

/-- `len(self.augmentation_transforms)`: 4 transforms when augmenting,
else the list is empty (line 87-92). -/
def augBound (ctx : DCtx) : Nat :=
  if ctx.augment then 4 else 0

/-- `__getitem__` (reachable code: lines 406-627; everything from line 628
on is dead code, every path of the try/except having already returned).
The fuel argument is `len(plant_data) - skip_count`, which bounds the
recursion because every recursive call increments the skip count and
line 407 raises once it reaches the record count.  Every failure path
(missing fields, gate miss, resolution miss, fetch/decode error at either
fetch, unknown label) recurses on raw index `(base_idx + 1) %
len(plant_data)` with `skip_count + 1`, exactly as the source does.  On
success the memoized result is stored back into the cache (line 616)
under the FINAL value of the `cache_key` variable — initialized at
line 450 to image_name ++ "_" ++ aug_idx but possibly rebound by
strategy 4's substring scans (see `resolveUrlsK`) — so the
possibly-updated cache is returned alongside the value; the success
value is whatever Python returns — normally the (image, label) tuple, or
verbatim whatever a memo key already holds (line 452). -/
def getItemF (ctx : DCtx) (cache : AssetCache) :
    Nat → Nat → Nat → Except GErr (CacheVal × AssetCache)
  | 0, _, _ => .error .exhausted
  | fuel + 1, idx, skip =>
    if ctx.plants.length ≤ skip then .error .exhausted
    else
      match ctx.plants[baseOf ctx idx]? with
      | none => .error .indexError
      | some plant =>
        if plant.image_name = "" ∨ plant.scientific_name = "" then
          getItemF ctx cache fuel ((baseOf ctx idx + 1) % ctx.plants.length)
            (skip + 1)
        else if gatePass plant.image_name plant.scientific_name cache then
          match alookup (plant.image_name ++ "_" ++ toString (augIdxOf ctx idx))
              cache with
          | some v => .ok (v, cache)
          | none =>
            match resolveUrlsK plant.image_name cache
                (plant.image_name ++ "_" ++ toString (augIdxOf ctx idx)) with
            | ([], _) =>
              getItemF ctx cache fuel
                ((baseOf ctx idx + 1) % ctx.plants.length) (skip + 1)
            | (.url u :: _, ck) =>
              match ctx.fetch u with
              | .error _ =>
                getItemF ctx cache fuel
                  ((baseOf ctx idx + 1) % ctx.plants.length) (skip + 1)
              | .ok img0 =>
                if 0 ≤ augIdxOf ctx idx ∧
                    augIdxOf ctx idx < (augBound ctx : Int) then
                  match ctx.fetch (ctx.augUrl u (augIdxOf ctx idx).toNat) with
                  | .error _ =>
                    getItemF ctx cache fuel
                      ((baseOf ctx idx + 1) % ctx.plants.length) (skip + 1)
                  | .ok imgA =>
                    match alookup plant.scientific_name ctx.labels with
                    | none =>
                      getItemF ctx cache fuel
                        ((baseOf ctx idx + 1) % ctx.plants.length) (skip + 1)
                    | some lbl =>
                      .ok (CacheVal.sample (ctx.transform imgA, lbl),
                        dictSet ck
                          (CacheVal.sample (ctx.transform imgA, lbl)) cache)
                else
                  match alookup plant.scientific_name ctx.labels with
                  | none =>
                    getItemF ctx cache fuel
                      ((baseOf ctx idx + 1) % ctx.plants.length) (skip + 1)
                  | some lbl =>
                    .ok (CacheVal.sample (ctx.transform img0, lbl),
                      dictSet ck
                        (CacheVal.sample (ctx.transform img0, lbl)) cache)
            | (_ :: _, _) =>
              getItemF ctx cache fuel
                ((baseOf ctx idx + 1) % ctx.plants.length) (skip + 1)
        else
          getItemF ctx cache fuel ((baseOf ctx idx + 1) % ctx.plants.length)
            (skip + 1)

/-- `dataset[idx]`, starting from a given skip count (Python default 0). -/
def getItem (ctx : DCtx) (cache : AssetCache) (idx skip : Nat) :
    Except GErr (CacheVal × AssetCache) :=
  getItemF ctx cache (ctx.plants.length - skip) idx skip

deriving instance DecidableEq for Except

/-! ## Claim C10: the pre-strategy gate -/

/-- C10: before any of the four strategies is attempted, sample access
requires the gate of lines 436-447 — the record's normalized declared image
name or its normalized scientific name present in the cache with a truthy
(non-empty) entry.  A record failing the gate is skipped — the access
recurses on raw index (base+1) mod N with an incremented skip count — for
EVERY cache state, so in particular also when a strategy-1 or strategy-4
match for the record exists in the index (see the witness). -/
theorem c10_gate_skip (ctx : DCtx) (cache : AssetCache) (idx skip : Nat)
    (plant : PlantRecord)
    (h1 : skip < ctx.plants.length)
    (h2 : ctx.plants[baseOf ctx idx]? = some plant)
    (h3 : plant.image_name ≠ "")
    (h4 : plant.scientific_name ≠ "")
    (h5 : gatePass plant.image_name plant.scientific_name cache = false) :
    getItem ctx cache idx skip
      = getItem ctx cache ((baseOf ctx idx + 1) % ctx.plants.length)
          (skip + 1) := by
  unfold getItem
  have hf : ctx.plants.length - skip = (ctx.plants.length - (skip + 1)) + 1 := by
    omega
  rw [hf]
  simp only [getItemF]
  rw [if_neg (by omega), h2]
  dsimp only
  rw [if_neg (by simp [h3, h4]), if_neg (by simp [h5])]

def c10ctx : DCtx :=
  ⟨[⟨"lavender plant", "Sci name"⟩], false, [("Sci name", 0)],
    fun _ => .ok 7, id, fun u _ => u⟩

def c10cache : AssetCache := [("lavender", .urls ["u"])]

/-- Witness for C10 at a concrete state where the gate fails although a
strategy-4 match (word "lavender") exists in the index: the access skips. -/
theorem c10_witness :
    gatePass "lavender plant" "Sci name" c10cache = false ∧
    resolveUrls "lavender plant" c10cache = [MatchItem.url "u"] ∧
    getItem c10ctx c10cache 0 0 = getItem c10ctx c10cache 1 1 :=
  ⟨by decide, by decide,
    c10_gate_skip c10ctx c10cache 0 0 ⟨"lavender plant", "Sci name"⟩
      (by decide) (by decide) (by decide) (by decide) (by decide)⟩

/-! ## Claim C3: the skip-and-advance policy -/

def c3p1 : PlantRecord := ⟨"ppp", "s1"⟩

def c3ctx : DCtx :=
  ⟨[⟨"zzz", "s0"⟩, c3p1, ⟨"qqq", "s2"⟩], true,
    [("s0", 0), ("s1", 1), ("s2", 2)], fun _ => .ok 7, id, fun u _ => u⟩

def c3cache : AssetCache := [("ppp", .urls ["u1"]), ("qqq", .urls ["u2"])]

/-- C3 (code divergence): with augmentation enabled, a failure at base
record 0 recurses with raw index (0+1) mod 3 = 1, which the next call
decomposes as base record 1 / 5 = 0 again, so records 1 and 2 — both
resolvable and materializable, as the last conjuncts show — are never
examined and the access exhausts fatally after 3 skips.  Advancing to the
next BASE record, as the claim (and the line-408 error message) describes,
would instead succeed at record 1: the final conjunct shows the very same
record and cache succeed when record 1 is the base record examined. -/
theorem c3_code_divergence :
    getItem c3ctx c3cache 0 0 = .error .exhausted ∧
    gatePass c3p1.image_name c3p1.scientific_name c3cache = true ∧
    resolveUrls c3p1.image_name c3cache = [MatchItem.url "u1"] ∧
    getItem ⟨[c3p1], true, [("s1", 1)], fun _ => .ok 7, id, fun u _ => u⟩
        c3cache 0 0
      = .ok (CacheVal.sample (7, 1),
          c3cache ++ [("ppp_-1", CacheVal.sample (7, 1))]) := by
  refine ⟨rfl, by decide, by decide, rfl⟩

/-! ## Claim C5: cache immutability after construction -/

def c5ctx : DCtx :=
  ⟨[⟨"lavender plant", "Aloe vera"⟩], false, [("Aloe vera", 0)],
    fun _ => .ok 7, id, fun u _ => u⟩

def c5cache : AssetCache :=
  [("lavender plant", .urls []), ("aloe vera", .urls ["ua"]),
   ("plant", .urls ["up"])]

def c5mut : AssetCache :=
  [("lavender plant", .sample (7, 0)), ("aloe vera", .urls ["ua"]),
   ("plant", .urls ["up"])]

/-- C5 counterexample: a successful sample access mutates the cache after
construction — and it can even CHANGE an existing term entry.  Here the
gate passes via "aloe vera"; strategy 1 hits the empty seeded entry
"lavender plant"; strategy 4's substring scan for "lavender" breaks at key
"lavender plant" (empty, so the word loop continues) leaving the rebound
`cache_key` at that term key; "plant" then exact-matches; materialization
succeeds, and line 616 overwrites the URL entry "lavender plant" with the
processed sample tuple. -/
theorem c5_counterexample :
    alookup "lavender plant" c5cache = some (CacheVal.urls []) ∧
    getItem c5ctx c5cache 0 0 = .ok (CacheVal.sample (7, 0), c5mut) ∧
    alookup "lavender plant" c5mut = some (CacheVal.sample (7, 0)) := by
  refine ⟨by decide, rfl, by decide⟩

theorem alookup_dictSet_ne {k k' : String} {v : CacheVal} :
    ∀ c : AssetCache, k ≠ k' → alookup k (dictSet k' v c) = alookup k c
  | [], h => by
    simp only [dictSet, alookup]
    rw [if_neg (fun hh => h hh.symm)]
  | (k2, v2) :: rest, h => by
    simp only [dictSet]
    by_cases h2 : k2 = k'
    · subst h2
      simp only [if_pos rfl, alookup]
      rw [if_neg (fun hh => h hh.symm), if_neg (fun hh => h hh.symm)]
    · rw [if_neg h2]
      simp only [alookup]
      by_cases h3 : k2 = k
      · rw [if_pos h3, if_pos h3]
      · rw [if_neg h3, if_neg h3, alookup_dictSet_ne rest h]

theorem keysOf_dictSet {k' : String} {v : CacheVal} :
    ∀ c : AssetCache, ∀ k ∈ keysOf (dictSet k' v c), k ∈ keysOf c ∨ k = k'
  | [], k, hk => by
    simp [dictSet, keysOf] at hk
    exact Or.inr hk
  | (k2, v2) :: rest, k, hk => by
    simp only [dictSet] at hk
    by_cases h2 : k2 = k'
    · rw [if_pos h2] at hk
      simp only [keysOf, List.map_cons, List.mem_cons] at hk
      rcases hk with rfl | hk
      · exact Or.inl (by simp [keysOf])
      · exact Or.inl (by simp [keysOf, hk])
    · rw [if_neg h2] at hk
      simp only [keysOf, List.map_cons, List.mem_cons] at hk
      rcases hk with rfl | hk
      · exact Or.inl (by simp [keysOf])
      · rcases keysOf_dictSet rest k hk with h | h
        · exact Or.inl (by simp [keysOf] at h ⊢; exact Or.inr h)
        · exact Or.inr h

/-- Cache evolution of one `getItemF` call: the cache is unchanged, or
exactly one dictionary assignment happened — the line-616 write of the
memoized sample through the final `cache_key` value. -/
theorem getItemF_cache_inv (ctx : DCtx) (cache : AssetCache) :
    ∀ (fuel idx skip : Nat) (v : CacheVal) (cache' : AssetCache),
      getItemF ctx cache fuel idx skip = .ok (v, cache') →
      cache' = cache ∨
      ∃ (ck : String) (s : Img × Nat),
        cache' = dictSet ck (CacheVal.sample s) cache ∧
        ∀ k, k ≠ ck → alookup k cache' = alookup k cache := by
  intro fuel
  induction fuel with
  | zero =>
    intro idx skip v cache' h
    simp [getItemF] at h
  | succ fuel ih =>
    intro idx skip v cache' h
    simp only [getItemF] at h
    split at h
    · simp at h
    · split at h
      · simp at h
      · rename_i plant hplant
        split at h
        · exact ih _ _ _ _ h
        · split at h
          · split at h
            · rename_i w hmemo
              injection h with h
              injection h with hv hc
              exact Or.inl hc.symm
            · rename_i hmemo
              split at h
              · exact ih _ _ _ _ h
              · rename_i u utail ck hres
                split at h
                · exact ih _ _ _ _ h
                · rename_i img0 hfetch
                  split at h
                  · split at h
                    · exact ih _ _ _ _ h
                    · rename_i imgA hfetchA
                      split at h
                      · exact ih _ _ _ _ h
                      · rename_i lbl hlbl
                        injection h with h
                        injection h with hv hc
                        subst hc
                        refine Or.inr ⟨ck, (ctx.transform imgA, lbl), rfl, ?_⟩
                        intro k hk
                        exact alookup_dictSet_ne cache hk
                  · split at h
                    · exact ih _ _ _ _ h
                    · rename_i lbl hlbl
                      injection h with h
                      injection h with hv hc
                      subst hc
                      refine Or.inr ⟨ck, (ctx.transform img0, lbl), rfl, ?_⟩
                      intro k hk
                      exact alookup_dictSet_ne cache hk
              · exact ih _ _ _ _ h
          · exact ih _ _ _ _ h

/-- C5 (amended): per-sample resolution never mutates the dictionary, and
a successful access performs exactly one dictionary write (line 616): the
resulting cache is either unchanged (a memo hit) or `dictSet ck (sample
…)` of the input cache at a single key ck — the memo key image_name ++
"_" ++ aug_idx unless strategy 4's substring scan ran, in which case the
scan loop of line 563 rebound the `cache_key` variable and the written
key can be an existing term key, whose URL entry is then REPLACED by the
sample tuple (the counterexample exhibits this overwrite).  Every binding
at any other key is unchanged.  (The original blanket claim — no entry is
ever added, removed or changed after construction — is false.) -/
theorem c5_amended_cache_mutation (ctx : DCtx) (cache : AssetCache)
    (idx skip : Nat) (v : CacheVal) (cache' : AssetCache)
    (h : getItem ctx cache idx skip = .ok (v, cache')) :
    cache' = cache ∨
    ∃ (ck : String) (s : Img × Nat),
      cache' = dictSet ck (CacheVal.sample s) cache ∧
      ∀ k, k ≠ ck → alookup k cache' = alookup k cache :=
  getItemF_cache_inv ctx cache _ idx skip v cache' h

/-- Witness for the amended C5 at the counterexample's concrete run: the
mutated cache is one dictionary assignment away from the original. -/
theorem c5_witness :
    c5mut = c5cache ∨
    ∃ (ck : String) (s : Img × Nat),
      c5mut = dictSet ck (CacheVal.sample s) c5cache ∧
      ∀ k, k ≠ ck → alookup k c5mut = alookup k c5cache :=
  c5_amended_cache_mutation c5ctx c5cache 0 0 (CacheVal.sample (7, 0))
    c5mut rfl

/-! ## Claim C4: the sample materializer -/

/-- An HTTP response as the materializer sees it. -/
structure HttpResponse where
  status : Nat
  contentType : String
  body : List Nat
deriving DecidableEq, Repr

/-- The stage at which materialization fails. -/
inductive MatFail where
  | httpStatus
  | badContentType
  | tooSmall
  | badMagic
  | decodeFail
deriving DecidableEq, Repr

def isPreN : List Nat → List Nat → Bool
  | [], _ => true
  | _ :: _, [] => false
  | a :: as, b :: bs => a == b && isPreN as bs

/-- The magic-number table of lines 667-672: PNG, JPEG, GIF87a, GIF89a. -/
def magicNumbers : List (List Nat) :=
  [[0x89, 0x50, 0x4E, 0x47, 0x0D, 0x0A, 0x1A, 0x0A],
   [0xFF, 0xD8, 0xFF],
   [0x47, 0x49, 0x46, 0x38, 0x37, 0x61],
   [0x47, 0x49, 0x46, 0x38, 0x39, 0x61]]

def magicOK (body : List Nat) : Bool :=
  magicNumbers.any fun m => isPreN m body

/-- Modelled external PIL behaviour: `Image.open` identifies an image by
its leading signature bytes and raises UnidentifiedImageError otherwise;
the recognized set includes the formats of `magicNumbers` plus a few more
(BMP, RIFF/WEBP here).  A JSON text body starts with 0x7b and matches
none of them. -/
def pilIdentify (body : List Nat) : Bool :=
  (magicNumbers ++ [[0x42, 0x4D], [0x52, 0x49, 0x46, 0x46]]).any
    fun m => isPreN m body

/-- The REACHABLE materialization path (lines 586-592): HTTP GET with
raise_for_status, then immediately `Image.open(...).convert('RGB')`.  No
content-type or magic-byte validation happens before decoding. -/
def materializeReachable (resp : HttpResponse) : Except MatFail Unit :=
  if 400 ≤ resp.status then .error .httpStatus
  else if pilIdentify resp.body then .ok ()
  else .error .decodeFail

/-- The validating materialization path of lines 640-698 — UNREACHABLE
code: it sits after the returns at lines 617/622/627, so no execution ever
reaches it (it also reads `max_retries` and `base_transforms`, which are
undefined there).  Modelled to compare against the claim: content-type
check (line 658), minimum-size check (line 663), magic-number check
(lines 666-681), then decode. -/
def materializeValidated (resp : HttpResponse) : Except MatFail Unit :=
  if 400 ≤ resp.status then .error .httpStatus
  else if ¬ isPre "image/".data resp.contentType.data then
    .error .badContentType
  else if resp.body.length < 12 then .error .tooSmall
  else if ¬ magicOK resp.body then .error .badMagic
  else if pilIdentify resp.body then .ok ()
  else .error .decodeFail

/-- Body bytes of the 14-byte JSON text beginning with byte 0x7b. -/
def jsonBody : List Nat :=
  [123, 34, 101, 114, 114, 111, 114, 34, 58, 32, 34, 120, 34, 125]

def jsonResp : HttpResponse := ⟨200, "image/jpeg", jsonBody⟩

/-- C4 (code divergence): for a 200 response declaring image/jpeg whose
body is JSON text, the reachable materializer fails at DECODE time, never
at a magic-byte validation — no validation runs before decoding, the
validating block being dead code.  That unreachable block would fail at
the magic-byte stage, exactly as the claim describes. -/
theorem c4_code_divergence :
    materializeReachable jsonResp = .error .decodeFail ∧
    materializeReachable jsonResp ≠ .error .badMagic ∧
    materializeValidated jsonResp = .error .badMagic := by
  decide

/-! ## Claim C8: the label space (lines 77-84) -/

/-- Python's `<=` on strings: lexicographic comparison by code point. -/
def charListLe : List Char → List Char → Bool
  | [], _ => true
  | _ :: _, [] => false
  | a :: as, b :: bs =>
    if a.toNat < b.toNat then true
    else if b.toNat < a.toNat then false
    else charListLe as bs

def strLeProp (a b : String) : Prop :=
  charListLe a.data b.data = true

instance : DecidableRel strLeProp := fun a b => by
  unfold strLeProp
  infer_instance

theorem charListLe_total :
    ∀ as bs : List Char, charListLe as bs = true ∨ charListLe bs as = true
  | [], _ => Or.inl rfl
  | _ :: _, [] => Or.inr rfl
  | a :: as, b :: bs => by
    simp only [charListLe]
    rcases Nat.lt_trichotomy a.toNat b.toNat with h | h | h
    · left
      rw [if_pos h]
    · rw [if_neg (by omega), if_neg (by omega), if_neg (by omega),
        if_neg (by omega)]
      exact charListLe_total as bs
    · right
      rw [if_pos h]

theorem charListLe_trans :
    ∀ as bs cs : List Char, charListLe as bs = true → charListLe bs cs = true →
      charListLe as cs = true
  | [], _, _, _, _ => rfl
  | a :: as, [], cs, h1, _ => by simp [charListLe] at h1
  | a :: as, b :: bs, [], _, h2 => by simp [charListLe] at h2
  | a :: as, b :: bs, c :: cs, h1, h2 => by
    simp only [charListLe] at h1 h2 ⊢
    rcases Nat.lt_trichotomy a.toNat b.toNat with hab | hab | hab <;>
      rcases Nat.lt_trichotomy b.toNat c.toNat with hbc | hbc | hbc
    all_goals
      first
      | (rw [if_pos (by omega)])
      | (rw [if_neg (by omega), if_neg (by omega)]
         rw [if_neg (by omega), if_neg (by omega)] at h1 h2
         exact charListLe_trans as bs cs h1 h2)
      | (exfalso
         rw [if_neg (by omega), if_pos (by omega)] at h1
         exact Bool.false_ne_true h1)
      | (exfalso
         rw [if_neg (by omega), if_pos (by omega)] at h2
         exact Bool.false_ne_true h2)

theorem toNat_inj_char {a b : Char} (h : a.toNat = b.toNat) : a = b :=
  Char.ext (UInt32.ext h)

theorem charListLe_antisymm :
    ∀ as bs : List Char, charListLe as bs = true → charListLe bs as = true →
      as = bs
  | [], [], _, _ => rfl
  | [], _ :: _, _, h2 => by simp [charListLe] at h2
  | _ :: _, [], h1, _ => by simp [charListLe] at h1
  | a :: as, b :: bs, h1, h2 => by
    simp only [charListLe] at h1 h2
    rcases Nat.lt_trichotomy a.toNat b.toNat with hab | hab | hab
    · exfalso
      rw [if_neg (by omega), if_pos (by omega)] at h2
      exact Bool.false_ne_true h2
    · rw [if_neg (by omega), if_neg (by omega)] at h1 h2
      rw [toNat_inj_char hab, charListLe_antisymm as bs h1 h2]
    · exfalso
      rw [if_neg (by omega), if_pos (by omega)] at h1
      exact Bool.false_ne_true h1

instance : IsTotal String strLeProp :=
  ⟨fun a b => charListLe_total a.data b.data⟩

instance : IsTrans String strLeProp :=
  ⟨fun a b c => charListLe_trans a.data b.data c.data⟩

instance : IsAntisymm String strLeProp :=
  ⟨fun a b h1 h2 => String.ext (charListLe_antisymm a.data b.data h1 h2)⟩

/-- `sorted(set(scientific_names))` (line 82): dedup, then sort by
Python's string order — lexicographic on code points. -/
def uniqueLabels (names : List String) : List String :=
  List.insertionSort strLeProp names.dedup

/-- `label_to_idx = {label: idx for idx, label in
enumerate(unique_labels)}` (line 83), insertion-ordered. -/
def labelSpace (names : List String) : List (String × Nat) :=
  (uniqueLabels names).enum.map fun p => (p.2, p.1)

/-- Modelled from the spec: the "lower-cased, trimmed" form of a
scientific name by which the claim says the label space is keyed.  The
code applies no such transformation; this definition exists only to state
the counterexample. -/
def lowerTrim (s : String) : String :=
  ⟨(trimC s.data).map lowerChar⟩

def c8names : List String := ["Aloe vera", "aloe vera"]

/-- C8 counterexample: two scientific names that coincide after
lower-casing and trimming receive two DIFFERENT dense indices — line 82
sorts and dedups the raw names with no case folding or trimming, so the
label space is not a bijection keyed by lower-cased trimmed names. -/
theorem c8_counterexample :
    lowerTrim "Aloe vera" = lowerTrim "aloe vera" ∧
    alookup "Aloe vera" (labelSpace c8names) = some 0 ∧
    alookup "aloe vera" (labelSpace c8names) = some 1 := by
  decide

/-- C8 (amended): the label space is a bijection between the distinct RAW
scientific names (no lower-casing or trimming applied) and dense indices
[0, N): the label list is duplicate-free, sorted, contains exactly the
input names, and is invariant under permutation of the input, so building
it twice from the same unordered input yields identical assignments. -/
theorem c8_amended_labelspace (l1 l2 : List String) (hperm : l1.Perm l2) :
    labelSpace l1 = labelSpace l2 ∧
    (uniqueLabels l1).Nodup ∧
    (uniqueLabels l1).Sorted strLeProp ∧
    (∀ s : String, s ∈ l1 ↔ s ∈ uniqueLabels l1) := by
  have key : uniqueLabels l1 = uniqueLabels l2 :=
    List.eq_of_perm_of_sorted
      ((List.perm_insertionSort _ _).trans (hperm.dedup.trans
        (List.perm_insertionSort _ _).symm))
      (List.sorted_insertionSort _ _) (List.sorted_insertionSort _ _)
  refine ⟨by rw [labelSpace, labelSpace, key], ?_, ?_, ?_⟩
  · exact (List.perm_insertionSort _ _).symm.nodup (List.nodup_dedup l1)
  · exact List.sorted_insertionSort _ _
  · intro s
    constructor
    · intro hs
      exact ((List.perm_insertionSort _ _).mem_iff).2 (List.mem_dedup.2 hs)
    · intro hs
      exact List.mem_dedup.1 (((List.perm_insertionSort _ _).mem_iff).1 hs)

/-- Witness for the amended C8: two permutations of the same name list
yield the identical label space, which is duplicate-free. -/
theorem c8_witness :
    labelSpace ["b", "a"] = labelSpace ["a", "b"] ∧
    (uniqueLabels ["b", "a"]).Nodup :=
  ⟨(c8_amended_labelspace ["b", "a"] ["a", "b"] (by decide)).1,
   (c8_amended_labelspace ["b", "a"] ["a", "b"] (by decide)).2.1⟩

/-! ## Claim C9: asset-index construction (`_initialize_cache`, lines
113-128, and `_prefetch_images`, lines 161-368) -/

/-- `if name not in self._image_cache: self._image_cache[name] = []`. -/
def addIfAbsent (k : String) (c : AssetCache) : AssetCache :=
  if (alookup k c).isSome then c else c ++ [(k, .urls [])]

/-- `_initialize_cache` (lines 113-128): for every record with a truthy
image name, seed the normalized image name — and, nested inside that same
branch, the normalized scientific name — with an empty URL list.  No
length or non-emptiness check is applied to these keys. -/
def initCacheStep (c : AssetCache) (p : PlantRecord) : AssetCache :=
  if p.image_name = "" then c
  else
    let c1 := addIfAbsent (normalizeName p.image_name) c
    if p.scientific_name = "" then c1
    else addIfAbsent (normalizeName p.scientific_name) c1

def initCache (plants : List PlantRecord) : AssetCache :=
  plants.foldl initCacheStep []

/-- One Cloudinary resource as `_prefetch_images` reads it.  Pagination is
flattened into one resource list: a per-page fetch error is fatal in the
source, so a construction that completes saw exactly the concatenation of
its pages. -/
structure Resource where
  public_id : String
  tags : List String
  context : List String
  secure_url : String
deriving DecidableEq, Repr

/-- `os.path.basename`: the part after the last '/'. -/
def basenameStr (s : String) : String :=
  ⟨(s.data.reverse.takeWhile (· != '/')).reverse⟩

/-- Name variations of one resource (lines 246-268): the normalized
filename and its words, each truthy tag normalized plus its words, each
truthy context value normalized plus its words.  The Python set is
modelled as a list with duplicates, which is membership-equivalent here:
the `not in` guards below make reprocessing a variation a no-op. -/
def nameVariationsOf (r : Resource) : List String :=
  ([normalizeName (basenameStr r.public_id)]
    ++ wordsOfStr (normalizeName (basenameStr r.public_id)))
  ++ (r.tags.map fun t =>
      if t = "" then []
      else [normalizeName t] ++ wordsOfStr (normalizeName t)).flatten
  ++ (r.context.map fun v =>
      if v = "" then []
      else [normalizeName v] ++ wordsOfStr (normalizeName v)).flatten

/-- Modelled: `cloudinary.utils.cloudinary_url(public_id)[0]`, the URL
builder used when a resource carries no secure_url (line 290). -/
def fallbackUrl (pid : String) : String :=
  "https://res.cloudinary.com/image/upload/" ++ pid

def urlOf (r : Resource) : String :=
  if r.secure_url = "" then fallbackUrl r.public_id else r.secure_url

/-- Lines 292-297: create the key if absent, then append the URL if not
already present, counting one fetched image per appended URL.  A tuple
value cannot occur during construction; `in`/`append` on one would raise
and the per-variation handler (line 302) would skip, leaving the state
unchanged, which the last branch mirrors. -/
def addUrl (k url : String) (cf : AssetCache × Nat) : AssetCache × Nat :=
  match alookup k cf.1 with
  | none => (cf.1 ++ [(k, .urls [url])], cf.2 + 1)
  | some (.urls us) =>
    if url ∈ us then cf
    else (dictSet k (.urls (us ++ [url])) cf.1, cf.2 + 1)
  | some (.sample _) => cf

/-- Lines 279-296: store the URL under every variation of raw length > 2
whose cleanup `re.sub(r'[^a-zA-Z0-9\s]', '', variation.lower())` is
non-empty.  The length check runs BEFORE the cleanup. -/
def procVariation (url : String) (cf : AssetCache × Nat) (v : String) :
    AssetCache × Nat :=
  if 2 < v.length then
    if (⟨(v.data.map lowerChar).filter keepC⟩ : String) = "" then cf
    else addUrl ⟨(v.data.map lowerChar).filter keepC⟩ url cf
  else cf

def procResource (cf : AssetCache × Nat) (r : Resource) : AssetCache × Nat :=
  (nameVariationsOf r).foldl (procVariation (urlOf r)) cf

def prefetchAll (plants : List PlantRecord) (resources : List Resource) :
    AssetCache × Nat :=
  resources.foldl procResource (initCache plants, 0)

inductive BuildErr where
  | noImages
  | noUrls
  | noTerms
deriving DecidableEq, Repr

/-- Line 336: `len(urls) if isinstance(urls, list) else 1`, summed. -/
def totalUrls (c : AssetCache) : Nat :=
  (c.map fun kv => match kv.2 with
    | .urls us => us.length
    | .sample _ => 1).sum

/-- Index construction with the validation of lines 356-362: fail when no
image was cached, no URL is stored, or no term exists. -/
def buildIndex (plants : List PlantRecord) (resources : List Resource) :
    Except BuildErr AssetCache :=
  if (prefetchAll plants resources).2 = 0 then .error .noImages
  else if totalUrls (prefetchAll plants resources).1 = 0 then .error .noUrls
  else if (prefetchAll plants resources).1.length = 0 then .error .noTerms
  else .ok (prefetchAll plants resources).1

def c9plants : List PlantRecord := [⟨"()", "Xyz"⟩]

def c9res : List Resource := [⟨"Dataset/aloevera", [], [], "https://u"⟩]

def c9built : AssetCache :=
  [("", .urls []), ("xyz", .urls []), ("aloevera", .urls ["https://u"])]

/-- C9 counterexample: construction completes (one image cached), yet the
index contains the key "" — seeded by `_initialize_cache` from the record
image name "()", whose normalization is empty — violating both the
non-emptiness and the length-greater-2 parts of the claim. -/
theorem c9_counterexample :
    buildIndex c9plants c9res = .ok c9built ∧
    "" ∈ keysOf c9built ∧
    ¬ 2 < (normalizeName "").length := by
  refine ⟨rfl, by decide, by decide⟩

theorem keys_addUrl (k url : String) (cf : AssetCache × Nat) :
    ∀ k' ∈ keysOf (addUrl k url cf).1, k' ∈ keysOf cf.1 ∨ k' = k := by
  intro k' hk
  unfold addUrl at hk
  split at hk
  · simp only [keysOf, List.map_append, List.mem_append] at hk
    rcases hk with h | h
    · exact Or.inl h
    · simp at h
      exact Or.inr h
  · split at hk
    · exact Or.inl hk
    · exact keysOf_dictSet cf.1 k' hk
  · exact Or.inl hk

theorem keys_procVariation (url : String) (cf : AssetCache × Nat)
    (v : String) :
    ∀ k ∈ keysOf (procVariation url cf v).1, k ∈ keysOf cf.1 ∨ k ≠ "" := by
  intro k hk
  unfold procVariation at hk
  split at hk
  · split at hk
    · exact Or.inl hk
    · rename_i hclean
      rcases keys_addUrl _ url cf k hk with h | rfl
      · exact Or.inl h
      · exact Or.inr hclean
  · exact Or.inl hk

theorem keys_foldl_vars (url : String) :
    ∀ (vs : List String) (cf : AssetCache × Nat),
      ∀ k ∈ keysOf (vs.foldl (procVariation url) cf).1,
        k ∈ keysOf cf.1 ∨ k ≠ ""
  | [], _, _, hk => Or.inl hk
  | v :: vs, cf, k, hk => by
    rcases keys_foldl_vars url vs (procVariation url cf v) k hk with h | h
    · exact keys_procVariation url cf v k h
    · exact Or.inr h

theorem keys_foldl_res :
    ∀ (rs : List Resource) (cf : AssetCache × Nat),
      ∀ k ∈ keysOf (rs.foldl procResource cf).1, k ∈ keysOf cf.1 ∨ k ≠ ""
  | [], _, _, hk => Or.inl hk
  | r :: rs, cf, k, hk => by
    rcases keys_foldl_res rs (procResource cf r) k hk with h | h
    · exact keys_foldl_vars (urlOf r) (nameVariationsOf r) cf k h
    · exact Or.inr h

/-- C9 (amended): every key of a successfully built index either was
seeded by `_initialize_cache` from a record's normalized name — with no
length or emptiness guarantee, as the counterexample's empty key shows —
or was added during prefetch, in which case it is non-empty (the cleanup
result is checked truthy before storing).  The claimed bound "length > 2
after normalization" holds for no class of keys: the prefetch length check
applies to the raw variation before cleanup. -/
theorem c9_amended_keys (plants : List PlantRecord)
    (resources : List Resource) (c : AssetCache)
    (h : buildIndex plants resources = .ok c) :
    ∀ k ∈ keysOf c, k ∈ keysOf (initCache plants) ∨ k ≠ "" := by
  unfold buildIndex at h
  split at h
  · exact absurd h (by simp)
  · split at h
    · exact absurd h (by simp)
    · split at h
      · exact absurd h (by simp)
      · injection h with h
        subst h
        intro k hk
        exact keys_foldl_res resources (initCache plants, 0) k hk

/-- Witness for the amended C9 at the counterexample's concrete build. -/
theorem c9_witness :
    "aloevera" ∈ keysOf (initCache c9plants) ∨ "aloevera" ≠ "" :=
  c9_amended_keys c9plants c9res c9built rfl "aloevera" (by decide)

end MedPlant
